import Mathlib

/-!
A shallow embedding of the kedro data-asset catalog core (the
`KedroDataCatalog` facade, its pattern matcher, version coordinator and
credentials merger).  The implementation modules (`kedro/io`) are not part of
the source tree available here — only their tests are — so every definition
below is modelled from the specification's words, guided by the repository's
test suite (`tests/io/test_kedro_data_catalog.py`).
-/

namespace KedroSpec

abbrev Name := String
abbrev Token := String
abbrev Data := Nat

/-! ## Pattern Matcher

Modelled from the spec: the `Pattern Matcher` component of `kedro`
(`kedro/io`, absent from the source tree).  "Placeholder syntax `{x}`
compiles to a named capture; literal segments must match exactly; a name
matches a pattern only if every literal byte matches and every placeholder
captures a non-empty segment.  When multiple patterns match, the one with
the highest specificity wins; equal specificity breaks by earliest
registration."  Specificity is the "count of literal characters, wildcards
penalized". -/

/-- A compiled pattern segment: a literal character or a `{placeholder}`. -/
inductive Seg where
  | lit (c : Char)
  | hole (nm : String)
deriving DecidableEq, Repr

/-- Scan to the closing brace of a placeholder, returning its name and the
remaining characters. -/
def scanHole : List Char → String × List Char
  | [] => ("", [])
  | c :: cs => if c = '}' then ("", cs) else
      let (nm, rest) := scanHole cs
      (String.mk (c :: nm.data), rest)

/-- Compile a pattern string into segments (fuel-bounded scan). -/
def parseSegs (fuel : Nat) (cs : List Char) : List Seg :=
  match fuel, cs with
  | 0, _ => []
  | _, [] => []
  | fuel + 1, c :: cs =>
      if c = '{' then
        let (nm, rest) := scanHole cs
        Seg.hole nm :: parseSegs fuel rest
      else
        Seg.lit c :: parseSegs fuel cs

/-- The compiled form of a pattern string. -/
def compilePattern (p : String) : List Seg :=
  parseSegs (p.length + 1) p.data

/-- Does a segment list match a character list?  A literal must match the
next character exactly; a placeholder consumes one character and then
either hands over to the remaining segments or keeps consuming.  Every
step consumes a character or a segment, so fuel `#segments + #chars + 1`
is always enough (`patMatches` supplies it). -/
def matchesSegs : Nat → List Seg → List Char → Bool
  | 0, _, _ => false
  | _ + 1, [], ds => ds.isEmpty
  | fuel + 1, .lit c :: ss, ds =>
      match ds with
      | [] => false
      | d :: ds => c = d && matchesSegs fuel ss ds
  | fuel + 1, .hole nm :: ss, ds =>
      match ds with
      | [] => false
      | _ :: ds => matchesSegs fuel ss ds || matchesSegs fuel (.hole nm :: ss) ds

/-- Predicate `patMatches p n`: the pattern string `p` matches the requested name `n`. -/
def patMatches (p : String) (n : Name) : Bool :=
  let segs := compilePattern p
  matchesSegs (segs.length + n.data.length + 1) segs n.data

/-- Specificity of a pattern: the count of literal characters; placeholders
contribute nothing. -/
def specificity (p : String) : Nat :=
  (compilePattern p).countP (fun s => match s with | .lit _ => true | .hole _ => false)

/-- A wildcard catalog entry: the pattern and the handler blueprint its
template describes. -/
structure HandlerSpec where
  versioned : Bool
  hasExists : Bool
  hasConfirm : Bool
deriving DecidableEq, Repr

structure PatternEntry where
  pattern : String
  template : HandlerSpec
deriving DecidableEq, Repr

/-- Modelled from the spec: `match` of the missing pattern matcher — resolve a requested name against the ordered pattern list: the matching
entry of highest specificity wins, ties broken by earliest registration. -/
def matchPattern : List PatternEntry → Name → Option PatternEntry
  | [], _ => none
  | pe :: ps, n =>
      if patMatches pe.pattern n then
        match matchPattern ps n with
        | some q =>
            if specificity pe.pattern < specificity q.pattern then some q else some pe
        | none => some pe
      else matchPattern ps n

/-! ## Data model: handlers, catalog, backing store

Modelled from the spec: the `Catalog` facade and `Version Coordinator` of
`kedro` (`kedro/io/kedro_data_catalog.py` and `kedro/io/core.py`, absent
from the source tree).  The catalog owns `handlers : name → handler`
(write-once outside explicit `add`), an ordered pattern list, and a
`run_save_version` token "generated at most once per Catalog instance and
shared by every versioned save performed through that instance".  The
backing store records, per dataset and per version path, the artifact
written there; "a `save_version` path, once it exists on the backing
store, must never be reused for another save". -/

/-- A resolved storage handler.  `hid` is the instance identity (the model
of Python object identity: each instantiation receives a fresh id). -/
structure Handler where
  hid : Nat
  versioned : Bool
  hasExists : Bool
  hasConfirm : Bool
deriving DecidableEq, Repr

structure Catalog where
  datasets : List (Name × Handler)
  patterns : List PatternEntry
  runSaveVersion : Option Token
  nextHid : Nat
deriving DecidableEq, Repr

/-- The backing store: each existing version path `(name, some token)` (or
unversioned location `(name, none)`) holds one artifact. -/
abbrev Store := List ((Name × Option Token) × Data)

/-- One world state: the catalog plus the backing store it writes to. -/
structure World where
  cat : Catalog
  store : Store
deriving DecidableEq, Repr

/-- Observable side effects of a facade operation. -/
inductive Event where
  | warn (msg : String)
  | handlerCall (n : Name) (op : String)
deriving DecidableEq, Repr

/-- The error taxonomy of the spec. -/
inductive CatErr where
  | datasetNotFound (n : Name)
  | datasetAlreadyExists (n : Name)
  | versionConflict (n : Name) (v : Token)
  | versionNotFound (n : Name)
  | badPattern (re : String)
  | confirmMissing (n : Name)
  | loadFailed (n : Name)
  | credentialsNotFound (n : String)
  | credentialsDepth
  | internal
deriving DecidableEq, Repr

def storeLookup (st : Store) (n : Name) (v : Option Token) : Option Data :=
  (st.find? (fun e => e.1 = (n, v))).map (·.2)

def storeInsert (st : Store) (n : Name) (v : Option Token) (d : Data) : Store :=
  ((n, v), d) :: st

/-- Any artifact (any version) recorded for `n`? -/
def storeHasAny (st : Store) (n : Name) : Bool :=
  st.any (fun e => e.1.1 = n)

/-- The latest existing version for `n` (tokens compare lexicographically,
which agrees with chronological order for the fixed timestamp format). -/
def latestVersion (st : Store) (n : Name) : Option Token :=
  (st.filterMap (fun e => if e.1.1 = n then e.1.2 else none)).foldl
    (fun acc v =>
      match acc with
      | none => some v
      | some a => if compare a v = Ordering.lt then some v else some a)
    none

/-! ## Catalog facade operations -/

/-- Modelled from the spec: `get` of the missing catalog facade — return the cached handler; else resolve through the pattern
matcher, instantiate with a fresh id, cache, and return; else fail with
`DatasetNotFound`. -/
def get (cat : Catalog) (n : Name) : Except CatErr (Handler × Catalog) :=
  match cat.datasets.lookup n with
  | some h => .ok (h, cat)
  | none =>
      match matchPattern cat.patterns n with
      | some pe =>
          let h : Handler :=
            { hid := cat.nextHid
              versioned := pe.template.versioned
              hasExists := pe.template.hasExists
              hasConfirm := pe.template.hasConfirm }
          .ok (h, { cat with
                      datasets := cat.datasets ++ [(n, h)]
                      nextHid := cat.nextHid + 1 })
      | none => .error (.datasetNotFound n)

/-- Modelled from the spec: `save` of the missing catalog facade and version coordinator — resolve the handler; for a versioned handler fix the run-wide
save token (first save wins, later saves reuse it), refuse to reuse an
existing version path (`VersionConflict`), then write.  Returns the token
attached to the save (`none` for unversioned handlers).  `now` is the
wall-clock timestamp `generate_timestamp` would produce at this call. -/
def save (w : World) (n : Name) (d : Data) (now : Token) :
    Except CatErr (Option Token) × World × List Event :=
  match get w.cat n with
  | .error e => (.error e, w, [])
  | .ok (h, cat₁) =>
      if h.versioned then
        let sv := cat₁.runSaveVersion.getD now
        let cat₂ := { cat₁ with runSaveVersion := some sv }
        if (storeLookup w.store n (some sv)).isSome then
          (.error (.versionConflict n sv), { cat := cat₂, store := w.store }, [])
        else
          (.ok (some sv),
           { cat := cat₂, store := storeInsert w.store n (some sv) d },
           [.handlerCall n "save"])
      else
        (.ok none,
         { cat := cat₁, store := storeInsert w.store n none d },
         [.handlerCall n "save"])

/-- Modelled from the spec: `load` of the missing catalog facade — resolve the handler; for a versioned handler use the requested
version verbatim, else the latest existing one (`VersionNotFound` when none
exists); read the artifact, wrapping a missing one as `LoadFailed`. -/
def load (w : World) (n : Name) (requested : Option Token) :
    Except CatErr Data × World × List Event :=
  match get w.cat n with
  | .error e => (.error e, w, [])
  | .ok (h, cat₁) =>
      let w₁ : World := { cat := cat₁, store := w.store }
      if h.versioned then
        match requested.orElse (fun _ => latestVersion w.store n) with
        | none => (.error (.versionNotFound n), w₁, [])
        | some v =>
            match storeLookup w.store n (some v) with
            | some d => (.ok d, w₁, [.handlerCall n "load"])
            | none => (.error (.loadFailed n), w₁, [.handlerCall n "load"])
      else
        match storeLookup w.store n none with
        | some d => (.ok d, w₁, [.handlerCall n "load"])
        | none => (.error (.loadFailed n), w₁, [.handlerCall n "load"])

/-- Warning logged when a handler has no existence check. -/
def existsWarnMsg : String :=
  "exists is not implemented for this dataset. Assuming output does not exist."

/-- Modelled from the spec: `exists` of the missing catalog facade — an unknown name yields `false`; a handler without an
existence check yields `false` with a logged warning; otherwise the store
is consulted.  Never raises. -/
def dsExists (w : World) (n : Name) :
    Except CatErr Bool × World × List Event :=
  match get w.cat n with
  | .error _ => (.ok false, w, [])
  | .ok (h, cat₁) =>
      let w₁ : World := { cat := cat₁, store := w.store }
      if h.hasExists then
        (.ok (storeHasAny w.store n), w₁, [.handlerCall n "exists"])
      else
        (.ok false, w₁, [.warn existsWarnMsg])

/-- Modelled from the spec: `release` of the missing catalog facade — discard cached transient state; unknown names fail with
`DatasetNotFound`. -/
def release (w : World) (n : Name) :
    Except CatErr Unit × World × List Event :=
  match get w.cat n with
  | .error e => (.error e, w, [])
  | .ok (_, cat₁) => (.ok (), { cat := cat₁, store := w.store }, [.handlerCall n "release"])

/-- Modelled from the spec: `confirm` of the missing catalog facade — delegates to the optional confirm capability; fails when the
handler lacks it or the name is unknown. -/
def confirm (w : World) (n : Name) :
    Except CatErr Unit × World × List Event :=
  match get w.cat n with
  | .error e => (.error e, w, [])
  | .ok (h, cat₁) =>
      if h.hasConfirm then
        (.ok (), { cat := cat₁, store := w.store }, [.handlerCall n "confirm"])
      else
        (.error (.confirmMissing n), { cat := cat₁, store := w.store }, [])

/-- Modelled from the spec: `add` of the missing catalog facade — register a pre-built handler; an already-registered name fails
with `DatasetAlreadyExists`. -/
def add (w : World) (n : Name) (h : Handler) :
    Except CatErr Unit × World × List Event :=
  match w.cat.datasets.lookup n with
  | some _ => (.error (.datasetAlreadyExists n), w, [])
  | none =>
      (.ok (),
       { w with cat := { w.cat with datasets := w.cat.datasets ++ [(n, h)] } },
       [])

/-- A name that neither is registered nor matches any pattern. -/
def Unknown (w : World) (n : Name) : Prop :=
  w.cat.datasets.lookup n = none ∧ matchPattern w.cat.patterns n = none

instance (w : World) (n : Name) : Decidable (Unknown w n) := by
  unfold Unknown
  infer_instance

/-! ## Regex filtering for `list`

Modelled from the spec: `list(regex=none)` "returns known names, optionally
filtered; an invalid regex fails fast with a syntax error before any
dataset is touched".  The engine below covers the regular-expression
fragment the catalog's own tests exercise: literals, grouping, alternation
and a leading start anchor; an unbalanced group is a syntax error.  The
repository test `test_multi_catalog_list_regex` fixes the empty-string
special case: it matches no dataset at all. -/

inductive RE where
  | eps
  | ch (c : Char)
  | seq (a b : RE)
  | alt (a b : RE)
deriving DecidableEq, Repr

mutual

/-- Parse an alternation `seq (| seq)*`. -/
def parseAlt (fuel : Nat) (cs : List Char) : Except Unit (RE × List Char) :=
  match fuel with
  | 0 => .error ()
  | fuel + 1 => do
      let (r, rest) ← parseSeq fuel cs
      match rest with
      | '|' :: rest' => do
          let (r₂, rest₂) ← parseAlt fuel rest'
          .ok (RE.alt r r₂, rest₂)
      | _ => .ok (r, rest)

/-- Parse a sequence of atoms, stopping at `)`/`|` or the end. -/
def parseSeq (fuel : Nat) (cs : List Char) : Except Unit (RE × List Char) :=
  match fuel with
  | 0 => .error ()
  | fuel + 1 =>
      match cs with
      | [] => .ok (RE.eps, [])
      | ')' :: _ => .ok (RE.eps, cs)
      | '|' :: _ => .ok (RE.eps, cs)
      | _ => do
          let (a, rest) ← parseAtom fuel cs
          let (b, rest₂) ← parseSeq fuel rest
          .ok (RE.seq a b, rest₂)

/-- Parse one atom: a group or a literal character. -/
def parseAtom (fuel : Nat) (cs : List Char) : Except Unit (RE × List Char) :=
  match fuel with
  | 0 => .error ()
  | fuel + 1 =>
      match cs with
      | '(' :: rest => do
          let (r, rest₂) ← parseAlt fuel rest
          match rest₂ with
          | ')' :: rest₃ => .ok (r, rest₃)
          | _ => .error ()
      | c :: rest => .ok (RE.ch c, rest)
      | [] => .error ()

end

/-- Compile a regex string: a leading `^` anchors the search at the start;
the rest must parse completely. -/
def compileRegex (s : String) : Except Unit (Bool × RE) :=
  let (anchored, cs) :=
    match s.data with
    | '^' :: rest => (true, rest)
    | cs => (false, cs)
  match parseAlt (s.length * 2 + 4) cs with
  | .error _ => .error ()
  | .ok (r, []) => .ok (anchored, r)
  | .ok (_, _ :: _) => .error ()

/-- All suffixes a regex can leave after consuming a prefix of `s`. -/
def matchRE : RE → List Char → List (List Char)
  | .eps, s => [s]
  | .ch _, [] => []
  | .ch c, d :: ds => if c = d then [ds] else []
  | .seq a b, s => (matchRE a s).flatMap (matchRE b)
  | .alt a b, s => matchRE a s ++ matchRE b s

/-- Unanchored search: try every start position. -/
def searchFrom (r : RE) : List Char → Bool
  | [] => !(matchRE r []).isEmpty
  | c :: cs => !(matchRE r (c :: cs)).isEmpty || searchFrom r cs

/-- Python-style `re.search` on a compiled regex. -/
def reSearch (anchored : Bool) (r : RE) (s : List Char) : Bool :=
  if anchored then !(matchRE r s).isEmpty else searchFrom r s

/-- Search a name with a regex given as a string (false when the regex is
invalid; `listOp` rejects invalid regexes before ever calling this). -/
def searchStr (re : String) (n : Name) : Bool :=
  match compileRegex re with
  | .ok (anchored, r) => reSearch anchored r n.data
  | .error _ => false

def emptyRegexWarnMsg : String :=
  "The empty string will not match any data sets."

/-- Modelled from the spec: `list` of the missing catalog facade — return known names, optionally filtered by a regex.  An invalid
regex fails fast with `BadPattern`; the empty string matches nothing. -/
def listOp (w : World) (regex : Option String) :
    Except CatErr (List Name) × World × List Event :=
  match regex with
  | none => (.ok (w.cat.datasets.map (·.1)), w, [])
  | some re =>
      if re = "" then (.ok [], w, [.warn emptyRegexWarnMsg])
      else
        match compileRegex re with
        | .error _ => (.error (.badPattern re), w, [])
        | .ok (anchored, r) =>
            (.ok ((w.cat.datasets.map (·.1)).filter (fun n => reSearch anchored r n.data)),
             w, [])

/-! ## Credentials Merger

Modelled from the spec: the credentials resolution of `kedro`
(`kedro/io`, absent from the source tree).  "`resolve(raw_config, store)`
walks `raw_config` recursively; any key `credentials` whose value is a
string is replaced by `store[value]`; missing key fails with
`CredentialsNotFound(name)`; a dereferenced credential block may itself
contain further string credential references, resolved recursively with
the same failure mode and no cycle protection".  The fuel argument models
the call stack: a cyclic store would diverge in the source, here it
exhausts the fuel. -/

/-- A config value: strings, booleans, sequences and nested mappings. -/
inductive CVal where
  | str (s : String)
  | boolv (b : Bool)
  | listv (xs : List CVal)
  | mapv (kvs : List (String × CVal))
deriving Repr

def CVal.isStr : CVal → Bool
  | .str _ => true
  | _ => false

def CVal.isMap : CVal → Bool
  | .mapv _ => true
  | _ => false

/-- The credentials store: credential name → credential block. -/
abbrev CredStore := List (String × CVal)

/-- Modelled from the spec: the recursive credentials dereferencing of the missing credentials merger. -/
def resolveCreds (fuel : Nat) (v : CVal) (store : CredStore) : Except CatErr CVal :=
  match fuel, v with
  | 0, _ => .error .credentialsDepth
  | _ + 1, .mapv [] => .ok (.mapv [])
  | fuel + 1, .mapv ((k, x) :: rest) => do
      let x' ←
        if k = "credentials" then
          match x with
          | .str nm =>
              match store.lookup nm with
              | none => .error (.credentialsNotFound nm)
              | some block => resolveCreds fuel block store
          | _ => resolveCreds fuel x store
        else resolveCreds fuel x store
      match ← resolveCreds fuel (.mapv rest) store with
      | .mapv rs => .ok (.mapv ((k, x') :: rs))
      | _ => .error .internal
  | _ + 1, .listv [] => .ok (.listv [])
  | fuel + 1, .listv (x :: xs) => do
      let x' ← resolveCreds fuel x store
      match ← resolveCreds fuel (.listv xs) store with
      | .listv rs => .ok (.listv (x' :: rs))
      | _ => .error .internal
  | _ + 1, v => .ok v

/-- No mapping anywhere in the value binds key `credentials` to a raw
string: the shape every successfully merged config must have. -/
inductive NoCredStr : CVal → Prop where
  | str (s : String) : NoCredStr (.str s)
  | boolv (b : Bool) : NoCredStr (.boolv b)
  | listNil : NoCredStr (.listv [])
  | listCons {x : CVal} {xs : List CVal} :
      NoCredStr x → NoCredStr (.listv xs) → NoCredStr (.listv (x :: xs))
  | mapNil : NoCredStr (.mapv [])
  | mapCons {k : String} {x : CVal} {kvs : List (String × CVal)} :
      (k = "credentials" → x.isStr = false) →
      NoCredStr x → NoCredStr (.mapv kvs) → NoCredStr (.mapv ((k, x) :: kvs))

/-- The top-level constructor of a config value. -/
def kindCV : CVal → Nat
  | .str _ => 0
  | .boolv _ => 1
  | .listv _ => 2
  | .mapv _ => 3

/-- A well-formed credentials store maps names to mappings ("mapping of
credential name → arbitrary nested mapping"). -/
def wfStore (store : CredStore) : Bool :=
  store.all (fun p => p.2.isMap)

/-! ## Declarative construction: the version-key guard

Modelled from the spec: the config parsing of `kedro` (`kedro/io/core.py`,
absent from the source tree).  "If declarative config carries an explicit
version value, the coordinator strips it and emits a non-fatal warning." -/

def versionWarnMsg : String :=
  "version attribute removed from dataset configuration since it is a reserved word and cannot be directly specified"

/-- Strip an explicit `version` key from an entry config, warning if one
was present. -/
def stripVersion (cfg : List (String × CVal)) :
    List (String × CVal) × List Event :=
  if cfg.any (fun p => p.1 = "version") then
    (cfg.filter (fun p => p.1 ≠ "version"), [.warn versionWarnMsg])
  else (cfg, [])

/-- Process one declarative catalog entry: merge credentials, then strip
the reserved `version` key. -/
def fromConfigEntry (fuel : Nat) (cfg : List (String × CVal)) (store : CredStore) :
    Except CatErr (List (String × CVal)) × List Event :=
  match resolveCreds fuel (.mapv cfg) store with
  | .error e => (.error e, [])
  | .ok (.mapv cfg') =>
      let (cfg'', evts) := stripVersion cfg'
      (.ok cfg'', evts)
  | .ok _ => (.error .internal, [])

/-! ## Concrete fixtures (mirroring the repository's test fixtures) -/

/-- Template of the catch-all `\x7bdefault\x7d` runtime pattern
(a `MemoryDataset`). -/
def memTemplate : HandlerSpec := { versioned := false, hasExists := true, hasConfirm := false }

/-- Template of the `\x7banother\x7d#csv` runtime pattern (a CSV dataset). -/
def csvTemplate : HandlerSpec := { versioned := false, hasExists := true, hasConfirm := true }

/-- An unversioned CSV-like handler. -/
def csvHandler : Handler := { hid := 0, versioned := false, hasExists := true, hasConfirm := false }

/-- A `LambdaDataset`-like handler with no existence check. -/
def lambdaHandler : Handler := { hid := 1, versioned := false, hasExists := false, hasConfirm := false }

/-- A versioned handler (as `boats` with `versioned: true`). -/
def boatsHandler : Handler := { hid := 2, versioned := true, hasExists := true, hasConfirm := false }

/-- A second versioned handler (as the `planes` tracking dataset). -/
def planesHandler : Handler := { hid := 3, versioned := true, hasExists := true, hasConfirm := false }

/-- The two-entry catalog of `test_multi_catalog_list_regex`. -/
def demoListWorld : World :=
  { cat := { datasets := [("abc", csvHandler), ("xyz", { csvHandler with hid := 4 })]
             patterns := []
             runSaveVersion := none
             nextHid := 5 }
    store := [] }

/-- A catalog holding two versioned datasets and an empty backing store. -/
def demoVersionedWorld : World :=
  { cat := { datasets := [("boats", boatsHandler), ("planes", planesHandler)]
             patterns := []
             runSaveVersion := none
             nextHid := 5 }
    store := [] }

/-- A catalog whose only entry lacks an existence check, plus a catch-all
pattern. -/
def demoLambdaWorld : World :=
  { cat := { datasets := [("test", lambdaHandler)]
             patterns := [{ pattern := "{default}", template := memTemplate }]
             runSaveVersion := none
             nextHid := 5 }
    store := [] }

/-- The credentials store of the nested-credentials test fixture: `cached`
itself references `other_credentials`. -/
def demoCredStore : CredStore :=
  [("cached",
    .mapv [("client_kwargs", .mapv [("credentials", .str "other_credentials")]),
           ("key", .str "secret")]),
   ("other_credentials",
    .mapv [("aws_access_key_id", .str "OTHER_FAKE_ACCESS_KEY")])]

/-- A catalog entry config referencing the `cached` credentials block. -/
def demoEntryCfg : List (String × CVal) :=
  [("type", .str "pandas.CSVDataset"), ("credentials", .str "cached")]

/-- The same store with `other_credentials` deleted, so the reference
nested inside the `cached` block dangles. -/
def demoBrokenStore : CredStore :=
  [("cached", .mapv [("credentials", .str "other_credentials")])]

/-- An entry config carrying an explicit `version` value. -/
def demoVersionCfg : List (String × CVal) :=
  [("type", .str "pandas.CSVDataset"), ("version", .boolv true),
   ("versioned", .boolv true)]

end KedroSpec

namespace KedroSpec

/-! # Theorems -/

/-- A result `matchPattern ps n = none` means no registered pattern matches `n`. -/
theorem matchPattern_eq_none {ps : List PatternEntry} {n : Name}
    (h : matchPattern ps n = none) : ∀ q ∈ ps, patMatches q.pattern n = false := by
  induction ps with
  | nil => simp
  | cons pe ps ih =>
      intro q hq
      by_cases hm : patMatches pe.pattern n
      · exfalso
        cases hmp : matchPattern ps n with
        | some q' => simp [matchPattern, hm, hmp] at h; split at h <;> simp_all
        | none => simp [matchPattern, hm, hmp] at h
      · have h' : matchPattern ps n = none := by
          simpa [matchPattern, hm] using h
        rcases List.mem_cons.mp hq with rfl | hq'
        · simpa using hm
        · exact ih h' q hq'

/-- The entry `matchPattern` returns matches the name, is registered, and
has maximal specificity among all matching entries. -/
theorem matchPattern_max {ps : List PatternEntry} {n : Name} {pe : PatternEntry}
    (h : matchPattern ps n = some pe) :
    pe ∈ ps ∧ patMatches pe.pattern n = true ∧
      ∀ q ∈ ps, patMatches q.pattern n = true →
        specificity q.pattern ≤ specificity pe.pattern := by
  induction ps generalizing pe with
  | nil => simp [matchPattern] at h
  | cons p ps ih =>
      by_cases hm : patMatches p.pattern n
      · cases hmp : matchPattern ps n with
        | none =>
            have hpe : p = pe := by simpa [matchPattern, hm, hmp] using h
            subst hpe
            refine ⟨List.mem_cons_self _ _, hm, ?_⟩
            intro q hq hmq
            rcases List.mem_cons.mp hq with rfl | hq'
            · exact le_refl _
            · exact absurd hmq (by simp [matchPattern_eq_none hmp q hq'])
        | some q' =>
            rcases ih hmp with ⟨hq'mem, hq'match, hq'max⟩
            by_cases hlt : specificity p.pattern < specificity q'.pattern
            · have hpe : q' = pe := by simpa [matchPattern, hm, hmp, hlt] using h
              subst hpe
              refine ⟨List.mem_cons_of_mem _ hq'mem, hq'match, ?_⟩
              intro q hq hmq
              rcases List.mem_cons.mp hq with rfl | hq'
              · exact le_of_lt hlt
              · exact hq'max q hq' hmq
            · have hpe : p = pe := by simpa [matchPattern, hm, hmp, hlt] using h
              subst hpe
              refine ⟨List.mem_cons_self _ _, hm, ?_⟩
              intro q hq hmq
              rcases List.mem_cons.mp hq with rfl | hq'
              · exact le_refl _
              · exact le_trans (hq'max q hq' hmq) (Nat.le_of_not_lt hlt)
      · have h' : matchPattern ps n = some pe := by
          simpa [matchPattern, hm] using h
        rcases ih h' with ⟨hmem, hmatch, hmax⟩
        refine ⟨List.mem_cons_of_mem _ hmem, hmatch, ?_⟩
        intro q hq hmq
        rcases List.mem_cons.mp hq with rfl | hq'
        · exact absurd hmq (by simp [hm])
        · exact hmax q hq' hmq

/-- The winner splits the registration list: every matching entry
registered earlier is strictly less specific (else it would have won the
tie), every matching entry registered later is at most as specific. -/
theorem matchPattern_split {ps : List PatternEntry} {n : Name} {pe : PatternEntry}
    (h : matchPattern ps n = some pe) :
    ∃ l₁ l₂, ps = l₁ ++ pe :: l₂ ∧
      (∀ q ∈ l₁, patMatches q.pattern n = true →
        specificity q.pattern < specificity pe.pattern) ∧
      (∀ q ∈ l₂, patMatches q.pattern n = true →
        specificity q.pattern ≤ specificity pe.pattern) := by
  induction ps generalizing pe with
  | nil => simp [matchPattern] at h
  | cons p ps ih =>
      by_cases hm : patMatches p.pattern n
      · cases hmp : matchPattern ps n with
        | none =>
            have hpe : p = pe := by simpa [matchPattern, hm, hmp] using h
            subst hpe
            refine ⟨[], ps, rfl, by simp, ?_⟩
            intro q hq hmq
            exact absurd hmq (by simp [matchPattern_eq_none hmp q hq])
        | some q' =>
            by_cases hlt : specificity p.pattern < specificity q'.pattern
            · have hpe : q' = pe := by simpa [matchPattern, hm, hmp, hlt] using h
              subst hpe
              rcases ih hmp with ⟨l₁, l₂, hsplit, hbefore, hafter⟩
              refine ⟨p :: l₁, l₂, by simp [hsplit], ?_, hafter⟩
              intro q hq hmq
              rcases List.mem_cons.mp hq with rfl | hq'
              · exact hlt
              · exact hbefore q hq' hmq
            · have hpe : p = pe := by simpa [matchPattern, hm, hmp, hlt] using h
              subst hpe
              refine ⟨[], ps, rfl, by simp, ?_⟩
              intro q hq hmq
              exact le_trans ((matchPattern_max hmp).2.2 q hq hmq) (Nat.le_of_not_lt hlt)
      · have h' : matchPattern ps n = some pe := by
          simpa [matchPattern, hm] using h
        rcases ih h' with ⟨l₁, l₂, hsplit, hbefore, hafter⟩
        exact ⟨p :: l₁, l₂, by simp [hsplit], by
          intro q hq hmq
          rcases List.mem_cons.mp hq with rfl | hq'
          · exact absurd hmq (by simp [hm])
          · exact hbefore q hq' hmq, hafter⟩

/-- C3: for every requested name matched by several patterns, `match`
returns the matching pattern of highest specificity, ties broken by
earliest registration (every matching entry registered before the winner
is strictly less specific, every one registered after is at most as
specific); in particular, with the patterns `\x7bx\x7d` and
`\x7bx\x7d#csv` registered and a request for `foo#csv`, the
`\x7bx\x7d#csv` pattern wins. -/
theorem pattern_specificity_wins :
    (∀ (ps : List PatternEntry) (n : Name) (pe : PatternEntry),
      matchPattern ps n = some pe →
      patMatches pe.pattern n = true ∧
      (∀ q ∈ ps, patMatches q.pattern n = true →
        specificity q.pattern ≤ specificity pe.pattern) ∧
      ∃ l₁ l₂, ps = l₁ ++ pe :: l₂ ∧
        (∀ q ∈ l₁, patMatches q.pattern n = true →
          specificity q.pattern < specificity pe.pattern) ∧
        (∀ q ∈ l₂, patMatches q.pattern n = true →
          specificity q.pattern ≤ specificity pe.pattern)) ∧
    matchPattern
        [{ pattern := "{x}", template := memTemplate },
         { pattern := "{x}#csv", template := csvTemplate }] "foo#csv" =
      some { pattern := "{x}#csv", template := csvTemplate } ∧
    patMatches "{x}" "foo#csv" = true := by
  refine ⟨?_, by decide, by decide⟩
  intro ps n pe h
  exact ⟨(matchPattern_max h).2.1, (matchPattern_max h).2.2, matchPattern_split h⟩

/-- Witness for C3: the general precedence statement applied to the
concrete two-pattern registration of the claim. -/
theorem pattern_specificity_wins_witness :
    patMatches "{x}#csv" "foo#csv" = true ∧
    (∀ q ∈ ([{ pattern := "{x}", template := memTemplate },
              { pattern := "{x}#csv", template := csvTemplate }] : List PatternEntry),
      patMatches q.pattern "foo#csv" = true →
      specificity q.pattern ≤ specificity "{x}#csv") ∧
    ∃ l₁ l₂,
      ([{ pattern := "{x}", template := memTemplate },
        { pattern := "{x}#csv", template := csvTemplate }] : List PatternEntry) =
        l₁ ++ ({ pattern := "{x}#csv", template := csvTemplate } : PatternEntry) :: l₂ ∧
      (∀ q ∈ l₁, patMatches q.pattern "foo#csv" = true →
        specificity q.pattern < specificity "{x}#csv") ∧
      (∀ q ∈ l₂, patMatches q.pattern "foo#csv" = true →
        specificity q.pattern ≤ specificity "{x}#csv") :=
  pattern_specificity_wins.1
    [{ pattern := "{x}", template := memTemplate },
     { pattern := "{x}#csv", template := csvTemplate }]
    "foo#csv"
    { pattern := "{x}#csv", template := csvTemplate }
    (by decide)

/-- Lookup distributes over append when the key is absent on the left. -/
theorem lookup_append_none {α β : Type} [BEq α] {l₁ : List (α × β)} {l₂ : List (α × β)}
    {k : α} (h : l₁.lookup k = none) : (l₁ ++ l₂).lookup k = l₂.lookup k := by
  induction l₁ with
  | nil => simp
  | cons p l₁ ih =>
      simp only [List.lookup, List.cons_append] at h ⊢
      split at h
      · exact absurd h (by simp)
      · simp_all [List.lookup]

/-- C8: `get` is identity-stable: once a call returns a handler (cached or
lazily instantiated through a pattern), repeating the call on the
resulting catalog returns the very same handler instance and leaves the
catalog unchanged. -/
theorem get_identity_stable :
    ∀ (cat : Catalog) (n : Name) (h : Handler) (cat' : Catalog),
      get cat n = .ok (h, cat') → get cat' n = .ok (h, cat') := by
  intro cat n h cat' hg
  cases hl : cat.datasets.lookup n with
  | some h0 =>
      rw [get, hl] at hg
      obtain ⟨rfl, rfl⟩ : h0 = h ∧ cat = cat' := by
        have := Except.ok.inj hg
        exact ⟨congrArg Prod.fst this, congrArg Prod.snd this⟩
      rw [get, hl]
  | none =>
      cases hmp : matchPattern cat.patterns n with
      | none => rw [get, hl, hmp] at hg; exact absurd hg (by simp)
      | some pe =>
          rw [get, hl, hmp] at hg
          have hp := Except.ok.inj hg
          have hh : ({ hid := cat.nextHid, versioned := pe.template.versioned,
                       hasExists := pe.template.hasExists,
                       hasConfirm := pe.template.hasConfirm } : Handler) = h :=
            congrArg Prod.fst hp
          have hcat : cat' = { cat with datasets := cat.datasets ++ [(n, h)]
                                        nextHid := cat.nextHid + 1 } := by
            rw [← hh]
            exact (congrArg Prod.snd hp).symm
          have hl' : cat'.datasets.lookup n = some h := by
            rw [hcat]
            simpa [List.lookup] using @lookup_append_none Name Handler _ cat.datasets [(n, h)] n hl
          rw [get, hl']

/-- Witness for C8: a name first resolved lazily through the catch-all
pattern is cached and returned unchanged the second time. -/
theorem get_identity_stable_witness :
    get { demoLambdaWorld.cat with
            datasets := demoLambdaWorld.cat.datasets ++
              [("match_pattern_ds",
                { hid := 5, versioned := false, hasExists := true, hasConfirm := false })]
            nextHid := 6 } "match_pattern_ds" =
      .ok ({ hid := 5, versioned := false, hasExists := true, hasConfirm := false },
           { demoLambdaWorld.cat with
               datasets := demoLambdaWorld.cat.datasets ++
                 [("match_pattern_ds",
                   { hid := 5, versioned := false, hasExists := true, hasConfirm := false })]
               nextHid := 6 }) :=
  get_identity_stable demoLambdaWorld.cat "match_pattern_ds"
    { hid := 5, versioned := false, hasExists := true, hasConfirm := false }
    _ rfl

/-- Calling `get` on an already-registered name returns it and leaves the catalog
unchanged. -/
theorem get_of_lookup {cat : Catalog} {n : Name} {h : Handler}
    (hl : cat.datasets.lookup n = some h) : get cat n = .ok (h, cat) := by
  rw [get, hl]

/-- Operation `get` never touches the run-wide save token. -/
theorem get_runSaveVersion {cat : Catalog} {n : Name} {h : Handler} {cat' : Catalog}
    (hg : get cat n = .ok (h, cat')) : cat'.runSaveVersion = cat.runSaveVersion := by
  cases hl : cat.datasets.lookup n with
  | some h0 =>
      rw [get, hl] at hg
      have h2 : cat = cat' := congrArg Prod.snd (Except.ok.inj hg)
      rw [← h2]
  | none =>
      cases hmp : matchPattern cat.patterns n with
      | none => rw [get, hl, hmp] at hg; exact absurd hg (by simp)
      | some pe =>
          rw [get, hl, hmp] at hg
          have h2 : ({ cat with
                         datasets := cat.datasets ++
                           [(n, { hid := cat.nextHid, versioned := pe.template.versioned,
                                  hasExists := pe.template.hasExists,
                                  hasConfirm := pe.template.hasConfirm })]
                         nextHid := cat.nextHid + 1 } : Catalog) = cat' :=
            congrArg Prod.snd (Except.ok.inj hg)
          rw [← h2]

/-- Lookup ignores an appended suffix when the key is found on the left. -/
theorem lookup_append_some {α β : Type} [BEq α] {l₁ l₂ : List (α × β)} {k : α} {b : β}
    (h : l₁.lookup k = some b) : (l₁ ++ l₂).lookup k = some b := by
  induction l₁ with
  | nil => simp [List.lookup] at h
  | cons p l₁ ih =>
      simp only [List.lookup, List.cons_append] at h ⊢
      split at h
      · simp_all [List.lookup]
      · simp_all [List.lookup]

/-- Operation `get` never removes a registered handler. -/
theorem get_datasets_lookup {cat : Catalog} {n : Name} {h : Handler} {cat' : Catalog}
    {m : Name} {hm : Handler} (hg : get cat n = .ok (h, cat'))
    (hl : cat.datasets.lookup m = some hm) : cat'.datasets.lookup m = some hm := by
  cases hln : cat.datasets.lookup n with
  | some h0 =>
      rw [get, hln] at hg
      have h2 : cat = cat' := congrArg Prod.snd (Except.ok.inj hg)
      rw [← h2]
      exact hl
  | none =>
      cases hmp : matchPattern cat.patterns n with
      | none => rw [get, hln, hmp] at hg; exact absurd hg (by simp)
      | some pe =>
          rw [get, hln, hmp] at hg
          have h2 : ({ cat with
                         datasets := cat.datasets ++
                           [(n, { hid := cat.nextHid, versioned := pe.template.versioned,
                                  hasExists := pe.template.hasExists,
                                  hasConfirm := pe.template.hasConfirm })]
                         nextHid := cat.nextHid + 1 } : Catalog) = cat' :=
            congrArg Prod.snd (Except.ok.inj hg)
          rw [← h2]
          exact lookup_append_some hl


/-- The artifact just written is found at its version path. -/
theorem storeLookup_insert_self (st : Store) (n : Name) (v : Option Token) (d : Data) :
    storeLookup (storeInsert st n v d) n v = some d := by
  simp [storeInsert, storeLookup, List.find?]

/-- Equation for `save` when the handler is versioned and its version path
is free: the token is fixed run-wide and the artifact written. -/
theorem save_eq_ok {w : World} {n : Name} {d : Data} {t : Token}
    {hh : Handler} {cat₁ : Catalog}
    (hg : get w.cat n = .ok (hh, cat₁)) (hv : hh.versioned = true)
    (hc : (storeLookup w.store n (some (cat₁.runSaveVersion.getD t))).isSome = false) :
    save w n d t =
      (.ok (some (cat₁.runSaveVersion.getD t)),
       { cat := { cat₁ with runSaveVersion := some (cat₁.runSaveVersion.getD t) }
         store := storeInsert w.store n (some (cat₁.runSaveVersion.getD t)) d },
       [.handlerCall n "save"]) := by
  rw [save, hg]
  simp [hv, hc]

/-- Equation for `save` when the handler is versioned but the version path
is taken: `VersionConflict`, nothing written, no handler call. -/
theorem save_eq_conflict {w : World} {n : Name} {d : Data} {t : Token}
    {hh : Handler} {cat₁ : Catalog}
    (hg : get w.cat n = .ok (hh, cat₁)) (hv : hh.versioned = true)
    (hc : (storeLookup w.store n (some (cat₁.runSaveVersion.getD t))).isSome = true) :
    save w n d t =
      (.error (.versionConflict n (cat₁.runSaveVersion.getD t)),
       { cat := { cat₁ with runSaveVersion := some (cat₁.runSaveVersion.getD t) }
         store := w.store },
       []) := by
  rw [save, hg]
  simp [hv, hc]

/-- A successful versioned save fixes the run-wide token to the token it
attached to the save. -/
theorem save_ok_fixes {w : World} {n : Name} {d : Data} {t v : Token}
    (h : (save w n d t).1 = .ok (some v)) :
    (save w n d t).2.1.cat.runSaveVersion = some v := by
  cases hg : get w.cat n with
  | error e => rw [save, hg] at h; exact absurd h (by simp)
  | ok p =>
      obtain ⟨hh, cat₁⟩ := p
      by_cases hv : hh.versioned
      · cases hc : (storeLookup w.store n (some (cat₁.runSaveVersion.getD t))).isSome with
        | true => rw [save_eq_conflict hg hv hc] at h; exact absurd h (by simp)
        | false =>
            rw [save_eq_ok hg hv hc] at h ⊢
            have h2 : some (cat₁.runSaveVersion.getD t) = some v := Except.ok.inj h
            simpa using h2
      · rw [save, hg] at h
        simp only [Bool.not_eq_true] at hv
        simp [hv] at h


/-- Once the run-wide token is fixed, every later successful versioned
save through the catalog attaches exactly that token. -/
theorem save_uses_fixed {w : World} {n : Name} {d : Data} {t u v : Token}
    (hr : w.cat.runSaveVersion = some u)
    (h : (save w n d t).1 = .ok (some v)) : v = u := by
  cases hg : get w.cat n with
  | error e => rw [save, hg] at h; exact absurd h (by simp)
  | ok p =>
      obtain ⟨hh, cat₁⟩ := p
      have hr₁ : cat₁.runSaveVersion = some u := (get_runSaveVersion hg).trans hr
      have hgd : cat₁.runSaveVersion.getD t = u := by rw [hr₁]; rfl
      by_cases hv : hh.versioned
      · cases hc : (storeLookup w.store n (some (cat₁.runSaveVersion.getD t))).isSome with
        | true => rw [save_eq_conflict hg hv hc] at h; exact absurd h (by simp)
        | false =>
            rw [save_eq_ok hg hv hc] at h
            have h2 : some (cat₁.runSaveVersion.getD t) = some v := Except.ok.inj h
            rw [hgd] at h2
            exact (Option.some.inj h2).symm
      · rw [save, hg] at h
        simp only [Bool.not_eq_true] at hv
        simp [hv] at h

/-- C1: all versioned datasets saved through one catalog instance in one
run carry the identical save-version token: whichever dataset is saved
first fixes the token, and any later save — of any other dataset, at any
later wall-clock time — reuses it. -/
theorem run_save_token_shared :
    ∀ (w : World) (a b : Name) (da db : Data) (t₁ t₂ : Token) (va vb : Token),
      a ≠ b →
      (save w a da t₁).1 = .ok (some va) →
      (save (save w a da t₁).2.1 b db t₂).1 = .ok (some vb) →
      vb = va := by
  intro w a b da db t₁ t₂ va vb _ h₁ h₂
  exact save_uses_fixed (save_ok_fixes h₁) h₂

/-- Witness for C1: saving `boats` then `planes` at two different
wall-clock instants attaches the first instant's token to both. -/
theorem run_save_token_shared_witness :
    ("boats" : Name) ≠ "planes" ∧
    (save demoVersionedWorld "boats" 7 "2024-01-01T00.00.00.000Z").1 =
      .ok (some "2024-01-01T00.00.00.000Z") ∧
    (save (save demoVersionedWorld "boats" 7 "2024-01-01T00.00.00.000Z").2.1
        "planes" 8 "2024-01-02T09.30.00.000Z").1 =
      .ok (some "2024-01-01T00.00.00.000Z") ∧
    ("2024-01-01T00.00.00.000Z" : Token) = "2024-01-01T00.00.00.000Z" :=
  ⟨by decide, rfl, rfl,
   run_save_token_shared demoVersionedWorld "boats" "planes" 7 8
     "2024-01-01T00.00.00.000Z" "2024-01-02T09.30.00.000Z"
     "2024-01-01T00.00.00.000Z" "2024-01-01T00.00.00.000Z"
     (by decide) rfl rfl⟩

/-- C2: saving a versioned dataset a second time with the same resolved
save version fails with `VersionConflict` instead of overwriting: the
engine sees the target version path already exists, raises, leaves the
backing store (and hence the existing artifact) unchanged, and never
delegates the write to the handler. -/
theorem version_conflict_on_reuse :
    ∀ (w : World) (n : Name) (h : Handler) (d₁ d₂ : Data) (t₁ t₂ v : Token),
      w.cat.datasets.lookup n = some h → h.versioned = true →
      (save w n d₁ t₁).1 = .ok (some v) →
      (save (save w n d₁ t₁).2.1 n d₂ t₂).1 = .error (.versionConflict n v) ∧
      (save (save w n d₁ t₁).2.1 n d₂ t₂).2.1.store = (save w n d₁ t₁).2.1.store ∧
      (save (save w n d₁ t₁).2.1 n d₂ t₂).2.2 = [] := by
  intro w n h d₁ d₂ t₁ t₂ v hl hv h1
  have hg : get w.cat n = .ok (h, w.cat) := get_of_lookup hl
  cases hc : (storeLookup w.store n (some (w.cat.runSaveVersion.getD t₁))).isSome with
  | true =>
      rw [save_eq_conflict hg hv hc] at h1
      exact absurd h1 (by simp)
  | false =>
      have heq := save_eq_ok (d := d₁) hg hv hc
      have hveq : w.cat.runSaveVersion.getD t₁ = v := by
        rw [heq] at h1
        simpa using Except.ok.inj h1
      have hw₁ : (save w n d₁ t₁).2.1 =
          { cat := { w.cat with runSaveVersion := some v }
            store := storeInsert w.store n (some v) d₁ } := by
        rw [heq, hveq]
      have hg₂ : get (save w n d₁ t₁).2.1.cat n = .ok (h, (save w n d₁ t₁).2.1.cat) :=
        get_of_lookup (by rw [hw₁]; exact hl)
      have hgd₂ : (save w n d₁ t₁).2.1.cat.runSaveVersion.getD t₂ = v := by
        rw [hw₁]
        rfl
      have hc₂ : (storeLookup (save w n d₁ t₁).2.1.store n
          (some ((save w n d₁ t₁).2.1.cat.runSaveVersion.getD t₂))).isSome = true := by
        rw [hgd₂, hw₁]
        simp [storeLookup_insert_self]
      have heq₂ := save_eq_conflict (d := d₂) hg₂ hv hc₂
      refine ⟨?_, ?_, ?_⟩
      · rw [heq₂, hgd₂]
      · rw [heq₂]
      · rw [heq₂]

/-- Witness for C2: a second save of `boats` under the run token raises
`VersionConflict` and leaves the store as the first save left it. -/
theorem version_conflict_on_reuse_witness :
    demoVersionedWorld.cat.datasets.lookup "boats" = some boatsHandler ∧
    boatsHandler.versioned = true ∧
    (save demoVersionedWorld "boats" 7 "2024-01-01T00.00.00.000Z").1 =
      .ok (some "2024-01-01T00.00.00.000Z") ∧
    (save (save demoVersionedWorld "boats" 7 "2024-01-01T00.00.00.000Z").2.1
        "boats" 9 "2024-01-03T00.00.00.000Z").1 =
      .error (.versionConflict "boats" "2024-01-01T00.00.00.000Z") ∧
    (save (save demoVersionedWorld "boats" 7 "2024-01-01T00.00.00.000Z").2.1
        "boats" 9 "2024-01-03T00.00.00.000Z").2.1.store =
      (save demoVersionedWorld "boats" 7 "2024-01-01T00.00.00.000Z").2.1.store := by
  have h := version_conflict_on_reuse demoVersionedWorld "boats" boatsHandler 7 9
    "2024-01-01T00.00.00.000Z" "2024-01-03T00.00.00.000Z" "2024-01-01T00.00.00.000Z"
    (by decide) (by decide) rfl
  exact ⟨by decide, by decide, rfl, h.1, h.2.1⟩

/-- An unknown name makes `get` fail with `DatasetNotFound`. -/
theorem get_unknown {cat : Catalog} {n : Name}
    (hl : cat.datasets.lookup n = none)
    (hmp : matchPattern cat.patterns n = none) :
    get cat n = .error (.datasetNotFound n) := by
  rw [get, hl, hmp]

theorem load_unknown {w : World} {n : Name} {req : Option Token}
    (hu : Unknown w n) : (load w n req).1 = .error (.datasetNotFound n) := by
  rw [load, get_unknown hu.1 hu.2]

theorem save_unknown {w : World} {n : Name} {d : Data} {t : Token}
    (hu : Unknown w n) : (save w n d t).1 = .error (.datasetNotFound n) := by
  rw [save, get_unknown hu.1 hu.2]

theorem release_unknown {w : World} {n : Name}
    (hu : Unknown w n) : (release w n).1 = .error (.datasetNotFound n) := by
  rw [release, get_unknown hu.1 hu.2]

theorem confirm_unknown {w : World} {n : Name}
    (hu : Unknown w n) : (confirm w n).1 = .error (.datasetNotFound n) := by
  rw [confirm, get_unknown hu.1 hu.2]

theorem dsExists_unknown {w : World} {n : Name}
    (hu : Unknown w n) : (dsExists w n).1 = .ok false := by
  rw [dsExists, get_unknown hu.1 hu.2]

/-- Operation `exists` always returns a boolean, never an error. -/
theorem dsExists_never_raises (w : World) (n : Name) :
    ∃ b, (dsExists w n).1 = .ok b := by
  cases hg : get w.cat n with
  | error e => exact ⟨false, by rw [dsExists, hg]⟩
  | ok p =>
      obtain ⟨h, cat₁⟩ := p
      by_cases hx : h.hasExists
      · exact ⟨storeHasAny w.store n, by rw [dsExists, hg]; simp [hx]⟩
      · refine ⟨false, ?_⟩
        rw [dsExists, hg]
        simp only [Bool.not_eq_true] at hx
        simp [hx]

/-- C4: for every registered dataset whose handler lacks an existence
check, `exists` logs a warning and returns `false`; `exists` never raises
at all; and it is the only facade operation with a non-raising fallback —
`load`, `save`, `release` and `confirm` all raise `DatasetNotFound` on an
unknown name, `add` raises `DatasetAlreadyExists` on a duplicate, and
`list` raises `BadPattern` on an invalid regex. -/
theorem exists_sole_nonraising_fallback :
    (∀ (w : World) (n : Name), ∃ b, (dsExists w n).1 = .ok b) ∧
    (∀ (w : World) (n : Name) (h : Handler) (cat₁ : Catalog),
      get w.cat n = .ok (h, cat₁) → h.hasExists = false →
      (dsExists w n).1 = .ok false ∧
      (dsExists w n).2.2 = [.warn existsWarnMsg]) ∧
    (∀ (w : World) (n : Name), Unknown w n →
      (load w n none).1 = .error (.datasetNotFound n) ∧
      (save w n 0 "v").1 = .error (.datasetNotFound n) ∧
      (release w n).1 = .error (.datasetNotFound n) ∧
      (confirm w n).1 = .error (.datasetNotFound n)) ∧
    (∀ (w : World) (n : Name) (h h₀ : Handler),
      w.cat.datasets.lookup n = some h₀ →
      (add w n h).1 = .error (.datasetAlreadyExists n)) ∧
    (∀ (w : World), (listOp w (some "((")).1 = .error (.badPattern "((")) := by
  refine ⟨dsExists_never_raises, ?_, ?_, ?_, ?_⟩
  · intro w n h cat₁ hg hx
    rw [dsExists, hg]
    simp [hx]
  · intro w n hu
    exact ⟨load_unknown hu, save_unknown hu, release_unknown hu, confirm_unknown hu⟩
  · intro w n h h₀ hl
    rw [add, hl]
  · intro w
    rfl

/-- Witness for C4: in the lambda-handler catalog, `exists` on the handler
without an existence check warns and returns `false`; the raising
operations raise at concrete inputs. -/
theorem exists_sole_nonraising_fallback_witness :
    ((dsExists demoLambdaWorld "test").1 = .ok false ∧
      (dsExists demoLambdaWorld "test").2.2 = [.warn existsWarnMsg]) ∧
    (load demoVersionedWorld "missing_ds" none).1 =
      .error (.datasetNotFound "missing_ds") ∧
    (add demoVersionedWorld "boats" csvHandler).1 =
      .error (.datasetAlreadyExists "boats") := by
  refine ⟨?_, ?_, ?_⟩
  · exact exists_sole_nonraising_fallback.2.1 demoLambdaWorld "test"
      lambdaHandler demoLambdaWorld.cat rfl rfl
  · exact (exists_sole_nonraising_fallback.2.2.1 demoVersionedWorld "missing_ds"
      (by constructor <;> rfl)).1
  · exact exists_sole_nonraising_fallback.2.2.2.1 demoVersionedWorld "boats"
      csvHandler boatsHandler rfl

/-- C9: for a name that is neither registered nor matched by a pattern,
`exists` returns `false` rather than raising, even though `load`, `save`,
`release` and `confirm` all raise `DatasetNotFound` on the same name. -/
theorem exists_false_on_unknown_name :
    ∀ (w : World) (n : Name), Unknown w n →
      (dsExists w n).1 = .ok false ∧
      (load w n none).1 = .error (.datasetNotFound n) ∧
      (save w n 0 "v").1 = .error (.datasetNotFound n) ∧
      (release w n).1 = .error (.datasetNotFound n) ∧
      (confirm w n).1 = .error (.datasetNotFound n) := by
  intro w n hu
  exact ⟨dsExists_unknown hu, load_unknown hu, save_unknown hu,
    release_unknown hu, confirm_unknown hu⟩

/-- Witness for C9: `wrong_key` is not in the single-dataset catalog. -/
theorem exists_false_on_unknown_name_witness :
    Unknown demoVersionedWorld "wrong_key" ∧
    (dsExists demoVersionedWorld "wrong_key").1 = .ok false ∧
    (load demoVersionedWorld "wrong_key" none).1 =
      .error (.datasetNotFound "wrong_key") :=
  ⟨by constructor <;> rfl,
   (exists_false_on_unknown_name demoVersionedWorld "wrong_key"
     (by constructor <;> rfl)).1,
   (exists_false_on_unknown_name demoVersionedWorld "wrong_key"
     (by constructor <;> rfl)).2.1⟩

/-- C7: `list` never touches a dataset — it leaves the world unchanged and
never emits a handler call, for every input including invalid regexes; on
the two-entry catalog `\x7babc, xyz\x7d`, `list("((")` raises `BadPattern`
and `list("^a")` returns exactly `["abc"]`. -/
theorem list_fails_fast_untouched :
    (∀ (w : World) (re : Option String),
      (listOp w re).2.1 = w ∧
      ((listOp w re).2.2.all
        (fun e => match e with | .handlerCall _ _ => false | .warn _ => true)) = true) ∧
    (listOp demoListWorld (some "((")).1 = .error (.badPattern "((") ∧
    (listOp demoListWorld (some "^a")).1 = .ok ["abc"] := by
  refine ⟨?_, rfl, rfl⟩
  intro w re
  cases re with
  | none => exact ⟨rfl, rfl⟩
  | some s =>
      by_cases hs : s = ""
      · subst hs
        exact ⟨rfl, rfl⟩
      · cases hc : compileRegex s with
        | error e => simp [listOp, hs, hc]
        | ok p => obtain ⟨anch, r⟩ := p; simp [listOp, hs, hc]

/-- After an empty suffix the empty regex matches, so searching succeeds
everywhere. -/
theorem searchFrom_eps : ∀ l : List Char, searchFrom RE.eps l = true := by
  intro l
  cases l with
  | nil => rfl
  | cons c cs => simp [searchFrom, matchRE]

/-- Inverting a successful `Except` bind. -/
theorem exceptBind_ok {ε α β : Type} {x : Except ε α} {f : α → Except ε β} {b : β}
    (h : (x >>= f) = .ok b) : ∃ a, x = .ok a ∧ f a = .ok b := by
  cases x with
  | error e => simp [Bind.bind, Except.bind] at h
  | ok a => exact ⟨a, rfl, by simpa [Bind.bind, Except.bind] using h⟩

/-- Pushing a known `ok` through an `Except` bind. -/
theorem exceptBind_ok_eq {ε α β : Type} {x : Except ε α} {f : α → Except ε β} {a : α}
    (hx : x = .ok a) : (x >>= f) = f a := by
  subst hx
  simp [Bind.bind, Except.bind]

/-- Pushing a known `error` through an `Except` bind. -/
theorem exceptBind_error_eq {ε α β : Type} {x : Except ε α} {f : α → Except ε β} {e : ε}
    (hx : x = .error e) : (x >>= f) = .error e := by
  subst hx
  simp [Bind.bind, Except.bind]

/-- A well-formed store only holds mapping-shaped credential blocks. -/
theorem wfStore_lookup {store : CredStore} {nm : String} {b : CVal}
    (hw : wfStore store = true) (hl : store.lookup nm = some b) : b.isMap = true := by
  induction store with
  | nil => simp [List.lookup] at hl
  | cons p l ih =>
      simp only [wfStore, List.all_cons, Bool.and_eq_true] at hw
      simp only [List.lookup] at hl
      split at hl
      · cases hl
        exact hw.1
      · exact ih hw.2 hl

/-- Credentials merging preserves the top-level constructor of the value
it is applied to (dereferencing happens below binding level). -/
theorem resolveCreds_kind {f : Nat} {v : CVal} {store : CredStore} {r : CVal}
    (h : resolveCreds f v store = .ok r) : kindCV r = kindCV v := by
  match f, v with
  | 0, _ => simp [resolveCreds] at h
  | _ + 1, .str s => simp only [resolveCreds] at h; cases h; rfl
  | _ + 1, .boolv b => simp only [resolveCreds] at h; cases h; rfl
  | _ + 1, .listv [] => simp only [resolveCreds] at h; cases h; rfl
  | f + 1, .listv (x :: xs) =>
      simp only [resolveCreds] at h
      obtain ⟨x', hx, h⟩ := exceptBind_ok h
      obtain ⟨t, ht, h⟩ := exceptBind_ok h
      cases t <;> simp at h
      subst h
      rfl
  | _ + 1, .mapv [] => simp only [resolveCreds] at h; cases h; rfl
  | f + 1, .mapv ((k, x) :: rest) =>
      simp only [resolveCreds] at h
      repeat split at h
      all_goals
        obtain ⟨x', hx, h⟩ := exceptBind_ok h
      all_goals
        obtain ⟨t, ht, h⟩ := exceptBind_ok h
      all_goals
        cases t <;> simp at h
      all_goals
        subst h
      all_goals
        rfl

theorem isStr_false_of_isMap {r : CVal} (h : r.isMap = true) : r.isStr = false := by
  cases r <;> simp_all [CVal.isMap, CVal.isStr]

theorem isMap_of_kind3 {r : CVal} (h : kindCV r = 3) : r.isMap = true := by
  cases r <;> simp_all [kindCV, CVal.isMap]

theorem isStr_false_of_kind_ne {r : CVal} (h : kindCV r ≠ 0) : r.isStr = false := by
  cases r <;> simp_all [kindCV, CVal.isStr]

theorem kind_ne_zero_of_not_str {x : CVal} (h : ∀ s, x = .str s → False) :
    kindCV x ≠ 0 := by
  cases x with
  | str s => exact (h s rfl).elim
  | boolv b => simp [kindCV]
  | listv xs => simp [kindCV]
  | mapv kvs => simp [kindCV]

/-- Against a well-formed store, every successfully merged config is free
of string-valued `credentials` bindings: each one was replaced by the
named block from the store, recursively. -/
theorem resolveCreds_ok_noCredStr :
    ∀ (f : Nat) (v : CVal) (store : CredStore) (r : CVal),
      wfStore store = true → resolveCreds f v store = .ok r → NoCredStr r := by
  intro f
  induction f with
  | zero => intro v store r _ h; simp [resolveCreds] at h
  | succ f ih =>
      intro v store r hw h
      match v with
      | .str s => simp only [resolveCreds] at h; cases h; exact .str s
      | .boolv b => simp only [resolveCreds] at h; cases h; exact .boolv b
      | .listv [] => simp only [resolveCreds] at h; cases h; exact .listNil
      | .listv (x :: xs) =>
          simp only [resolveCreds] at h
          obtain ⟨x', hx, h⟩ := exceptBind_ok h
          obtain ⟨t, ht, h⟩ := exceptBind_ok h
          cases t <;> simp at h
          subst h
          exact .listCons (ih x store x' hw hx) (ih (.listv xs) store _ hw ht)
      | .mapv [] => simp only [resolveCreds] at h; cases h; exact .mapNil
      | .mapv ((k, x) :: rest) =>
          simp only [resolveCreds] at h
          repeat split at h
          · -- dangling reference: the bind starts with an error
            obtain ⟨x', hx, _⟩ := exceptBind_ok h
            simp at hx
          · -- `credentials` bound to a name found in the store
            rename_i hk xv nm xo blk hlk
            obtain ⟨x', hx, h⟩ := exceptBind_ok h
            obtain ⟨t, ht, h⟩ := exceptBind_ok h
            cases t <;> simp at h
            subst h
            have hmap : x'.isMap = true := by
              have hkind := resolveCreds_kind hx
              have hbm := wfStore_lookup hw hlk
              refine isMap_of_kind3 ?_
              rw [hkind]
              cases blk <;> simp_all [CVal.isMap, kindCV]
            exact .mapCons (fun _ => isStr_false_of_isMap hmap)
              (ih blk store x' hw hx) (ih (.mapv rest) store _ hw ht)
          · -- `credentials` bound to a non-string value
            rename_i hk xv hnostr
            obtain ⟨x', hx, h⟩ := exceptBind_ok h
            obtain ⟨t, ht, h⟩ := exceptBind_ok h
            cases t <;> simp at h
            subst h
            have hx' : x'.isStr = false := by
              refine isStr_false_of_kind_ne ?_
              rw [resolveCreds_kind hx]
              exact kind_ne_zero_of_not_str hnostr
            exact .mapCons (fun _ => hx')
              (ih x store x' hw hx) (ih (.mapv rest) store _ hw ht)
          · -- an ordinary key
            rename_i hk
            obtain ⟨x', hx, h⟩ := exceptBind_ok h
            obtain ⟨t, ht, h⟩ := exceptBind_ok h
            cases t <;> simp at h
            subst h
            exact .mapCons (fun hkc => absurd hkc hk)
              (ih x store x' hw hx) (ih (.mapv rest) store _ hw ht)

/-- A `credentials` key bound to a name present in the store is replaced
by the store's block, itself resolved recursively. -/
theorem resolveCreds_deref {f : Nat} {nm : String} {blk : CVal} {store : CredStore}
    (hl : store.lookup nm = some blk) :
    resolveCreds (f + 2) (.mapv [("credentials", .str nm)]) store =
      match resolveCreds (f + 1) blk store with
      | .ok b => .ok (.mapv [("credentials", b)])
      | .error e => .error e := by
  cases hb : resolveCreds (f + 1) blk store with
  | ok b =>
      simp only [resolveCreds, hl]
      rw [exceptBind_ok_eq hb]
      simp [resolveCreds, Bind.bind, Except.bind]
  | error e =>
      simp only [resolveCreds, hl]
      rw [exceptBind_error_eq hb]
      simp

/-- A `credentials` key referencing a name absent from the store fails
with `CredentialsNotFound` naming it. -/
theorem resolveCreds_missing {f : Nat} {nm : String} {store : CredStore}
    {rest : List (String × CVal)} (hl : store.lookup nm = none) :
    resolveCreds (f + 1) (.mapv (("credentials", .str nm) :: rest)) store =
      .error (.credentialsNotFound nm) := by
  simp [resolveCreds, hl]
  rw [exceptBind_error_eq rfl]

/-- A dangling reference nested inside a dereferenced block fails with
`CredentialsNotFound` naming the inner missing credential. -/
theorem resolveCreds_missing_nested {f : Nat} {nm₁ nm₂ : String} {store : CredStore}
    {rest₂ : List (String × CVal)}
    (h₁ : store.lookup nm₁ = some (.mapv (("credentials", .str nm₂) :: rest₂)))
    (h₂ : store.lookup nm₂ = none) :
    resolveCreds (f + 2) (.mapv [("credentials", .str nm₁)]) store =
      .error (.credentialsNotFound nm₂) := by
  rw [resolveCreds_deref h₁, resolveCreds_missing h₂]

/-- C5: the credentials merger replaces every string-valued `credentials`
key by the named block from the store (no such key survives a successful
merge, against a well-formed store), resolves dereferenced blocks
recursively with the same rule, and fails with `CredentialsNotFound`
naming the missing credential when a referenced name is absent — whether
at the top level or nested inside a dereferenced block. -/
theorem credentials_merge_resolves :
    (∀ (f : Nat) (v : CVal) (store : CredStore) (r : CVal),
      wfStore store = true → resolveCreds f v store = .ok r → NoCredStr r) ∧
    (∀ (f : Nat) (nm : String) (blk : CVal) (store : CredStore),
      store.lookup nm = some blk →
      resolveCreds (f + 2) (.mapv [("credentials", .str nm)]) store =
        match resolveCreds (f + 1) blk store with
        | .ok b => .ok (.mapv [("credentials", b)])
        | .error e => .error e) ∧
    (∀ (f : Nat) (nm : String) (store : CredStore) (rest : List (String × CVal)),
      store.lookup nm = none →
      resolveCreds (f + 1) (.mapv (("credentials", .str nm) :: rest)) store =
        .error (.credentialsNotFound nm)) ∧
    (∀ (f : Nat) (nm₁ nm₂ : String) (store : CredStore)
        (rest₂ : List (String × CVal)),
      store.lookup nm₁ = some (.mapv (("credentials", .str nm₂) :: rest₂)) →
      store.lookup nm₂ = none →
      resolveCreds (f + 2) (.mapv [("credentials", .str nm₁)]) store =
        .error (.credentialsNotFound nm₂)) :=
  ⟨resolveCreds_ok_noCredStr,
   fun _ _ _ _ hl => resolveCreds_deref hl,
   fun _ _ _ _ hl => resolveCreds_missing hl,
   fun _ _ _ _ _ h₁ h₂ => resolveCreds_missing_nested h₁ h₂⟩

/-- Witness for C5: merging the nested-credentials fixture succeeds and
leaves no raw reference behind; deleting the inner credential makes the
merge fail naming `other_credentials`; a missing top-level name is named
as well. -/
theorem credentials_merge_resolves_witness :
    NoCredStr (.mapv
      [("type", .str "pandas.CSVDataset"),
       ("credentials", .mapv
         [("client_kwargs", .mapv
           [("credentials", .mapv
             [("aws_access_key_id", .str "OTHER_FAKE_ACCESS_KEY")])]),
          ("key", .str "secret")])]) ∧
    resolveCreds 5 (.mapv [("credentials", .str "cached")]) demoBrokenStore =
      .error (.credentialsNotFound "other_credentials") ∧
    resolveCreds 3 (.mapv [("credentials", .str "missing")]) demoCredStore =
      .error (.credentialsNotFound "missing") :=
  ⟨credentials_merge_resolves.1 10 (.mapv demoEntryCfg) demoCredStore _ (by decide) rfl,
   credentials_merge_resolves.2.2.2 3 "cached" "other_credentials" demoBrokenStore
     [] rfl rfl,
   credentials_merge_resolves.2.2.1 2 "missing" demoCredStore [] rfl⟩

/-- Credentials merging preserves the keys of a mapping, in order. -/
theorem resolveCreds_keys :
    ∀ (f : Nat) (kvs : List (String × CVal)) (store : CredStore)
      (rs : List (String × CVal)),
      resolveCreds f (.mapv kvs) store = .ok (.mapv rs) →
      rs.map (·.1) = kvs.map (·.1) := by
  intro f
  induction f with
  | zero => intro kvs store rs h; simp [resolveCreds] at h
  | succ f ih =>
      intro kvs store rs h
      match kvs with
      | [] =>
          simp only [resolveCreds] at h
          cases h
          rfl
      | (k, x) :: rest =>
          simp only [resolveCreds] at h
          repeat split at h
          all_goals
            obtain ⟨x', hx, h⟩ := exceptBind_ok h
          all_goals
            first
              | simp at hx
              | (obtain ⟨t, ht, h⟩ := exceptBind_ok h
                 cases t <;> simp at h
                 subst h
                 simp only [List.map_cons]
                 rw [ih rest store _ ht])

/-- Every element surviving `filter` satisfies the filtering predicate. -/
theorem all_filter_self {α : Type} (l : List α) (p : α → Bool) :
    (l.filter p).all p = true := by
  simp only [List.all_eq_true]
  intro a ha
  exact (List.mem_filter.mp ha).2

/-- C6: a catalog entry whose declarative config carries an explicit
`version` value still constructs successfully (whenever the rest of the
entry pipeline succeeds), the `version` key is stripped from the entry's
config, and the non-fatal reserved-attribute warning is emitted. -/
theorem version_key_guard :
    ∀ (f : Nat) (cfg : List (String × CVal)) (store : CredStore) (r₀ : CVal),
      cfg.any (fun p => p.1 = "version") = true →
      resolveCreds f (.mapv cfg) store = .ok r₀ →
      ∃ res, fromConfigEntry f cfg store = (.ok res, [.warn versionWarnMsg]) ∧
        res.all (fun p => p.1 ≠ "version") = true := by
  intro f cfg store r₀ hv h
  have hkind := resolveCreds_kind h
  match r₀, hkind with
  | .mapv cfg', _ =>
      have hkeys := resolveCreds_keys f cfg store cfg' h
      have hmem : "version" ∈ cfg.map (·.1) := by
        rw [List.mem_map]
        simp only [List.any_eq_true, decide_eq_true_eq] at hv
        obtain ⟨p, hp, hpv⟩ := hv
        exact ⟨p, hp, hpv⟩
      have hmem' : "version" ∈ cfg'.map (·.1) := by rw [hkeys]; exact hmem
      have hv' : cfg'.any (fun p => p.1 = "version") = true := by
        simp only [List.any_eq_true, decide_eq_true_eq]
        obtain ⟨q, hq, hqv⟩ := List.mem_map.mp hmem'
        exact ⟨q, hq, hqv⟩
      refine ⟨cfg'.filter (fun p => p.1 ≠ "version"), ?_, ?_⟩
      · simp [fromConfigEntry, h, stripVersion, hv']
      · exact all_filter_self cfg' (fun p => p.1 ≠ "version")

/-- Witness for C6: the versioned `boats` entry config constructs, loses
its `version` key, and warns. -/
theorem version_key_guard_witness :
    demoVersionCfg.any (fun p => p.1 = "version") = true ∧
    ∃ res, fromConfigEntry 5 demoVersionCfg [] = (.ok res, [.warn versionWarnMsg]) ∧
      res.all (fun p => p.1 ≠ "version") = true :=
  ⟨by decide,
   version_key_guard 5 demoVersionCfg [] (.mapv demoVersionCfg) (by decide) rfl⟩

/-- C10: `list` with the empty-string regex returns the empty list — no
dataset name is considered a match — although ordinary regex search
semantics would match every name (the compiled empty regex matches every
string). -/
theorem list_empty_regex_matches_nothing :
    (∀ (w : World), (listOp w (some "")).1 = .ok []) ∧
    (∀ (s : String), searchStr "" s = true) := by
  refine ⟨fun _ => rfl, ?_⟩
  intro s
  have hc : compileRegex "" = .ok (false, RE.eps) := rfl
  rw [searchStr, hc]
  simpa [reSearch] using searchFrom_eps s.data

end KedroSpec
